import Mathlib

/-!
Verification of the coverage data pipeline: the LCOV report parser, the
coverage analyzer, the uncovered-region grouper, the treemap data deriver
and the coverage gating engine, shallowly embedded from the TypeScript
sources.

Modelling conventions:
* JavaScript `number` arithmetic is modelled by exact rationals (`ℚ`);
  `Math.round x` is `⌊x + 1/2⌋`, which agrees with JS for every real input.
* A JS number that may be `NaN` (the result of `parseInt` on
  non-numeric text) is modelled as `Option Int`, `none` standing for `NaN`;
  arithmetic propagates `none` and every comparison with `none` is `false`,
  exactly as NaN behaves in JS (including `NaN === NaN` being false).
* `Array.prototype.sort` with comparator `(a, b) => a - b` (resp.
  `a.line - b.line`) is modelled by a stable insertion sort; on numeric keys
  the result of the JS sort is the unique `≤`-sorted stable permutation.
* JS `Map` iteration order is insertion order and `Map.set` on an existing
  key overwrites in place; the model is an association list with an
  update-or-append operation.
-/

namespace CoverageMap

/-- A JS number that may be `NaN`: `none` is `NaN`. -/
abbrev OInt := Option Int

/-- Addition, propagating `NaN`. -/
def oAdd : OInt → OInt → OInt
  | some a, some b => some (a + b)
  | _, _ => none

/-- Subtraction, propagating `NaN`. -/
def oSub : OInt → OInt → OInt
  | some a, some b => some (a - b)
  | _, _ => none

/-- `Math.max`, propagating `NaN`. -/
def oMax : OInt → OInt → OInt
  | some a, some b => some (max a b)
  | _, _ => none

/-- JS `===` on possibly-NaN numbers: `NaN === x` is always false. -/
def oEqB : OInt → OInt → Bool
  | some a, some b => a = b
  | _, _ => false

/-- JS `x > 0` on a possibly-NaN number: false for `NaN`. -/
def oPosB : OInt → Bool
  | some a => 0 < a
  | none => false

/-- JS `a >= b`: false if either side is `NaN`. -/
def oGeB : OInt → OInt → Bool
  | some a, some b => b ≤ a
  | _, _ => false

/-- JS `a < b`: false if either side is `NaN`. -/
def oLtB : OInt → OInt → Bool
  | some a, some b => a < b
  | _, _ => false

/-- Strict order on possibly-NaN numbers as a proposition (false on `NaN`). -/
def oLtP : OInt → OInt → Prop
  | some a, some b => a < b
  | _, _ => False

instance : DecidableRel oLtP := fun a b =>
  match a, b with
  | some x, some y => inferInstanceAs (Decidable (x < y))
  | some _, none => inferInstanceAs (Decidable False)
  | none, some _ => inferInstanceAs (Decidable False)
  | none, none => inferInstanceAs (Decidable False)

/-- JS `Math.round`: round half toward positive infinity.
`⌊x + 1/2⌋` agrees with `Math.round` for every real argument. -/
def jsRound (q : ℚ) : ℤ := ⌊q + 1/2⌋

/-- Rounding to two decimal places, as `Math.round (x * 100) / 100`. -/
def round2 (q : ℚ) : ℚ := ((jsRound (q * 100) : ℚ)) / 100

/-- JS `parseInt(s, 10)`: skip leading whitespace, optional sign, then the
longest prefix of decimal digits; `NaN` (`none`) when no digit is found. -/
def parseIntJS (cs : List Char) : OInt :=
  let cs := cs.dropWhile Char.isWhitespace
  let signed : Int × List Char :=
    match cs with
    | '-' :: rest => (-1, rest)
    | '+' :: rest => (1, rest)
    | rest => (1, rest)
  let digits := signed.2.takeWhile Char.isDigit
  if digits.isEmpty then none
  else some (signed.1 * (digits.foldl (fun n c => n * 10 + (c.toNat - '0'.toNat)) 0 : Nat))

/-- Split a character list at every occurrence of the given character,
keeping empty pieces — the behaviour of JS `String.prototype.split` with a
single-character separator. -/
def splitOnChar (sep : Char) : List Char → List (List Char)
  | [] => [[]]
  | c :: rest =>
    let r := splitOnChar sep rest
    if c = sep then [] :: r
    else
      match r with
      | [] => [[c]]
      | h :: t => (c :: h) :: t

/-- JS `String.prototype.trim` (on the ASCII whitespace actually occurring
in LCOV reports). -/
def jsTrim (cs : List Char) : List Char :=
  ((cs.dropWhile Char.isWhitespace).reverse.dropWhile Char.isWhitespace).reverse

/-- `"".join(",")` of JS: interleave a comma between the pieces. -/
def joinComma (ps : List (List Char)) : List Char := List.intercalate [','] ps

/-! ## Data model of `lcov.ts` -/

/-- `FunctionCoverage` of `lcov.ts`: `line` and `hit` come from `parseInt`
and may be `NaN`. -/
structure FunctionCoverage where
  name : String
  line : OInt
  hit : OInt
deriving DecidableEq

/-- `LineCoverage` of `lcov.ts`. -/
structure LineCoverage where
  line : OInt
  hit : OInt
deriving DecidableEq

/-- `BranchCoverage` of `lcov.ts`. -/
structure BranchCoverage where
  line : OInt
  block : OInt
  branch : OInt
  taken : OInt
deriving DecidableEq

/-- The per-file summary block of `FileCoverage`; all six counts are list
lengths or filter counts, hence natural numbers. -/
structure CoverageSummary where
  functionsFound : Nat
  functionsHit : Nat
  linesFound : Nat
  linesHit : Nat
  branchesFound : Nat
  branchesHit : Nat
deriving DecidableEq

/-- `FileCoverage` of `lcov.ts`. -/
structure FileCoverage where
  path : String
  functions : List FunctionCoverage
  lines : List LineCoverage
  branches : List BranchCoverage
  summary : CoverageSummary
deriving DecidableEq

/-- The global summary block of `LcovReport`. -/
structure ReportSummary where
  totalFiles : Nat
  functionsFound : Nat
  functionsHit : Nat
  linesFound : Nat
  linesHit : Nat
  branchesFound : Nat
  branchesHit : Nat
deriving DecidableEq

/-- `LcovReport` of `lcov.ts`: the JS `Map` keyed by path is modelled as an
association list in insertion order. -/
structure LcovReport where
  files : List (String × FileCoverage)
  summary : ReportSummary
deriving DecidableEq

/-! ## `LcovParser` of `lcov.ts` -/

/-- `LcovParser.finalizeFileCoverage`: derive the per-file summary from the
accumulated record lists. -/
def finalizeFileCoverage (path : String) (functions : List FunctionCoverage)
    (lines : List LineCoverage) (branches : List BranchCoverage) : FileCoverage :=
  { path := path
    functions := functions
    lines := lines
    branches := branches
    summary :=
      { functionsFound := functions.length
        functionsHit := (functions.filter (fun f => oPosB f.hit)).length
        linesFound := lines.length
        linesHit := (lines.filter (fun l => oPosB l.hit)).length
        branchesFound := branches.length
        branchesHit := (branches.filter (fun b => oPosB b.taken)).length } }

/-- JS `Map.set`: overwrite in place when the key exists, append otherwise. -/
def mapSet (m : List (String × FileCoverage)) (k : String) (v : FileCoverage) :
    List (String × FileCoverage) :=
  match m with
  | [] => [(k, v)]
  | (k', v') :: rest => if k' = k then (k, v) :: rest else (k', v') :: mapSet rest k v

/-- The parser's implicit state: the stored files plus the open accumulator.
`currentFile` holds the path of the open accumulator (the only field of the
JS `Partial<FileCoverage>` ever set before finalization). -/
structure ParseState where
  files : List (String × FileCoverage)
  currentFile : Option String
  currentFunctions : List FunctionCoverage
  currentLines : List LineCoverage
  currentBranches : List BranchCoverage
deriving DecidableEq

/-- The initial parser state. -/
def initState : ParseState := ⟨[], none, [], [], []⟩

/-- Store the open accumulator, if any, into the file map.  The JS guard is
`currentFile && currentFile.path`, so an accumulator whose path is the empty
string (falsy) is not stored. -/
def storeCurrent (st : ParseState) : List (String × FileCoverage) :=
  match st.currentFile with
  | some p =>
    if p = "" then st.files
    else mapSet st.files p
      (finalizeFileCoverage p st.currentFunctions st.currentLines st.currentBranches)
  | none => st.files

/-- Whether the open accumulator passes the JS truthiness guard
`currentFile && currentFile.path`. -/
def flushable (st : ParseState) : Bool :=
  match st.currentFile with
  | some p => p ≠ ""
  | none => false

/-- `FNDA` handling: update the hit count of the first previously declared
function with exactly this name; drop the data silently otherwise. -/
def updateFirstHit (name : String) (hit : OInt) :
    List FunctionCoverage → List FunctionCoverage
  | [] => []
  | f :: fs =>
    if f.name = name then { f with hit := hit } :: fs
    else f :: updateFirstHit name hit fs

/-- One step of the parser's line loop, mirroring the `if`/`else if` chain of
`LcovParser.parse`.  `line` is already trimmed and nonempty. -/
def parseLine (st : ParseState) (line : List Char) : ParseState :=
  if ("SF:".toList).isPrefixOf line then
    { files := storeCurrent st
      currentFile := some (String.mk (line.drop 3))
      currentFunctions := []
      currentLines := []
      currentBranches := [] }
  else if ("FN:".toList).isPrefixOf line then
    match splitOnChar ',' (line.drop 3) with
    | p0 :: p1 :: rest =>
      { st with
        currentFunctions := st.currentFunctions ++
          [{ name := String.mk (joinComma (p1 :: rest)),
             line := parseIntJS p0, hit := some 0 }] }
    | _ => st
  else if ("FNDA:".toList).isPrefixOf line then
    match splitOnChar ',' (line.drop 5) with
    | p0 :: p1 :: rest =>
      { st with
        currentFunctions := updateFirstHit (String.mk (joinComma (p1 :: rest)))
          (parseIntJS p0) st.currentFunctions }
    | _ => st
  else if ("DA:".toList).isPrefixOf line then
    match splitOnChar ',' (line.drop 3) with
    | p0 :: p1 :: _ =>
      { st with
        currentLines := st.currentLines ++
          [{ line := parseIntJS p0, hit := parseIntJS p1 }] }
    | _ => st
  else if ("BRDA:".toList).isPrefixOf line then
    match splitOnChar ',' (line.drop 5) with
    | p0 :: p1 :: p2 :: p3 :: _ =>
      { st with
        currentBranches := st.currentBranches ++
          [{ line := parseIntJS p0, block := parseIntJS p1,
             branch := parseIntJS p2,
             taken := if p3 = ['-'] then some 0 else parseIntJS p3 }] }
    | _ => st
  else if line = "end_of_record".toList then
    if flushable st then
      { st with files := storeCurrent st, currentFile := none }
    else st
  else st

/-- One iteration of the accumulation loop in `LcovParser.calculateSummary`. -/
def lcovSumStep (acc : ReportSummary) (pf : String × FileCoverage) : ReportSummary :=
  { acc with
    functionsFound := acc.functionsFound + pf.2.summary.functionsFound
    functionsHit := acc.functionsHit + pf.2.summary.functionsHit
    linesFound := acc.linesFound + pf.2.summary.linesFound
    linesHit := acc.linesHit + pf.2.summary.linesHit
    branchesFound := acc.branchesFound + pf.2.summary.branchesFound
    branchesHit := acc.branchesHit + pf.2.summary.branchesHit }

/-- `LcovParser.calculateSummary`: field-wise sum of the stored file
summaries plus the file count. -/
def lcovCalculateSummary (files : List (String × FileCoverage)) : ReportSummary :=
  files.foldl lcovSumStep
    { totalFiles := files.length, functionsFound := 0, functionsHit := 0
      linesFound := 0, linesHit := 0, branchesFound := 0, branchesHit := 0 }

/-- End of input: flush a still-open accumulator, then build the report. -/
def finishParse (st : ParseState) : LcovReport :=
  let files := storeCurrent st
  { files := files, summary := lcovCalculateSummary files }

/-- `LcovParser.parse` restricted to the already split, trimmed and
blank-filtered list of input lines. -/
def parseLcovLines (lines : List (List Char)) : LcovReport :=
  finishParse (lines.foldl parseLine initState)

/-- `LcovParser.parse`: split the content on newlines, trim each line, drop
empty lines, then run the line loop. -/
def parse (content : String) : LcovReport :=
  parseLcovLines (((splitOnChar '\n' content.toList).map jsTrim).filter
    (fun l => !l.isEmpty))

/-! ## Data model of `changeset.ts` and `coverageAnalyzer.ts` -/

/-- `FileChange` of `changeset.ts`; the status union type is kept as a
string. -/
structure FileChange where
  path : String
  status : String
deriving DecidableEq

/-- `Changeset` of `changeset.ts`. -/
structure Changeset where
  baseCommit : String
  headCommit : String
  targetBranch : String
  files : List FileChange
  totalFiles : Nat
deriving DecidableEq

/-- The per-file `analysis` block of `FileChangeWithCoverage`; percentages
are exact rationals. -/
structure FileAnalysis where
  totalLines : Nat
  coveredLines : Nat
  totalFunctions : Nat
  coveredFunctions : Nat
  totalBranches : Nat
  coveredBranches : Nat
  linesCoveragePercentage : ℚ
  functionsCoveragePercentage : ℚ
  branchesCoveragePercentage : ℚ
  overallCoveragePercentage : ℚ
deriving DecidableEq

/-- `FileChangeWithCoverage` of `coverageAnalyzer.ts`. -/
structure FileChangeWithCoverage where
  path : String
  status : String
  coverage : Option FileCoverage
  analysis : FileAnalysis
deriving DecidableEq

/-- The `overallCoverage` block of the analysis summary. -/
structure OverallCoverage where
  totalLines : Nat
  coveredLines : Nat
  totalFunctions : Nat
  coveredFunctions : Nat
  totalBranches : Nat
  coveredBranches : Nat
  linesCoveragePercentage : ℚ
  functionsCoveragePercentage : ℚ
  branchesCoveragePercentage : ℚ
  overallCoveragePercentage : ℚ
deriving DecidableEq

/-- The `summary` block of `CoverageAnalysis`. -/
structure AnalysisSummary where
  totalChangedFiles : Nat
  filesWithCoverage : Nat
  filesWithoutCoverage : Nat
  overallCoverage : OverallCoverage
deriving DecidableEq

/-- `CoverageAnalysis` of `coverageAnalyzer.ts`. -/
structure CoverageAnalysis where
  changeset : Changeset
  changedFiles : List FileChangeWithCoverage
  summary : AnalysisSummary
deriving DecidableEq

/-! ## `CoverageAnalyzer` of `coverageAnalyzer.ts` -/

/-- The ternary `found > 0 ? (hit / found) * 100 : 100` used for every
percentage in the analyzer. -/
def rawPct (hit found : Nat) : ℚ :=
  if 0 < found then ((hit : ℚ) / (found : ℚ)) * 100 else 100

/-- `CoverageAnalyzer.calculateFileAnalysis`. -/
def calculateFileAnalysis (coverage : FileCoverage) : FileAnalysis :=
  let s := coverage.summary
  let totalElements := s.linesFound + s.functionsFound + s.branchesFound
  let coveredElements := s.linesHit + s.functionsHit + s.branchesHit
  { totalLines := s.linesFound
    coveredLines := s.linesHit
    totalFunctions := s.functionsFound
    coveredFunctions := s.functionsHit
    totalBranches := s.branchesFound
    coveredBranches := s.branchesHit
    linesCoveragePercentage := round2 (rawPct s.linesHit s.linesFound)
    functionsCoveragePercentage := round2 (rawPct s.functionsHit s.functionsFound)
    branchesCoveragePercentage := round2 (rawPct s.branchesHit s.branchesFound)
    overallCoveragePercentage := round2 (rawPct coveredElements totalElements) }

/-- The all-zero analysis block given to a changed file that has no entry in
the report. -/
def emptyFileAnalysis : FileAnalysis :=
  { totalLines := 0, coveredLines := 0, totalFunctions := 0
    coveredFunctions := 0, totalBranches := 0, coveredBranches := 0
    linesCoveragePercentage := 0, functionsCoveragePercentage := 0
    branchesCoveragePercentage := 0, overallCoveragePercentage := 0 }

/-- `lcovReport.files.get(path)` on the association-list model. -/
def lookupFile (report : LcovReport) (path : String) : Option FileCoverage :=
  (report.files.find? (fun pf => pf.1 = path)).map Prod.snd

/-- The body of the `changeset.files.map` callback in
`CoverageAnalyzer.analyze`. -/
def analyzeFile (report : LcovReport) (fileChange : FileChange) :
    FileChangeWithCoverage :=
  match lookupFile report fileChange.path with
  | some coverage =>
    { path := fileChange.path, status := fileChange.status
      coverage := some coverage, analysis := calculateFileAnalysis coverage }
  | none =>
    { path := fileChange.path, status := fileChange.status
      coverage := none, analysis := emptyFileAnalysis }

/-- The six running totals of `CoverageAnalyzer.calculateSummary`'s loop. -/
structure SummaryAcc where
  totalLines : Nat
  coveredLines : Nat
  totalFunctions : Nat
  coveredFunctions : Nat
  totalBranches : Nat
  coveredBranches : Nat
deriving DecidableEq

/-- One iteration of the aggregation loop in
`CoverageAnalyzer.calculateSummary`. -/
def summaryStep (acc : SummaryAcc) (f : FileChangeWithCoverage) : SummaryAcc :=
  { totalLines := acc.totalLines + f.analysis.totalLines
    coveredLines := acc.coveredLines + f.analysis.coveredLines
    totalFunctions := acc.totalFunctions + f.analysis.totalFunctions
    coveredFunctions := acc.coveredFunctions + f.analysis.coveredFunctions
    totalBranches := acc.totalBranches + f.analysis.totalBranches
    coveredBranches := acc.coveredBranches + f.analysis.coveredBranches }

/-- `CoverageAnalyzer.calculateSummary`. -/
def calculateSummary (changedFiles : List FileChangeWithCoverage) :
    AnalysisSummary :=
  let filesWithCoverage := (changedFiles.filter (fun f => f.coverage.isSome)).length
  let acc := changedFiles.foldl summaryStep ⟨0, 0, 0, 0, 0, 0⟩
  let totalElements := acc.totalLines + acc.totalFunctions + acc.totalBranches
  let coveredElements := acc.coveredLines + acc.coveredFunctions + acc.coveredBranches
  { totalChangedFiles := changedFiles.length
    filesWithCoverage := filesWithCoverage
    filesWithoutCoverage := changedFiles.length - filesWithCoverage
    overallCoverage :=
      { totalLines := acc.totalLines
        coveredLines := acc.coveredLines
        totalFunctions := acc.totalFunctions
        coveredFunctions := acc.coveredFunctions
        totalBranches := acc.totalBranches
        coveredBranches := acc.coveredBranches
        linesCoveragePercentage := round2 (rawPct acc.coveredLines acc.totalLines)
        functionsCoveragePercentage :=
          round2 (rawPct acc.coveredFunctions acc.totalFunctions)
        branchesCoveragePercentage :=
          round2 (rawPct acc.coveredBranches acc.totalBranches)
        overallCoveragePercentage := round2 (rawPct coveredElements totalElements) } }

/-- `CoverageAnalyzer.analyze`. -/
def analyze (changeset : Changeset) (lcovReport : LcovReport) : CoverageAnalysis :=
  let changedFiles := changeset.files.map (analyzeFile lcovReport)
  { changeset := changeset
    changedFiles := changedFiles
    summary := calculateSummary changedFiles }

/-- `CoverageAnalyzer.meetsCoverageThreshold`: a plain comparison of the
aggregate overall percentage against the threshold, with no special case. -/
def meetsCoverageThreshold (analysis : CoverageAnalysis) (threshold : ℚ) : Bool :=
  decide (analysis.summary.overallCoverage.overallCoveragePercentage ≥ threshold)

/-! ## `CoverageGating` of `coverageGating.ts` -/

/-- `GatingResult` of `coverageGating.ts`; the mode union type is kept as a
string. -/
structure GatingResult where
  meetsThreshold : Bool
  threshold : ℚ
  mode : String
  prCoveragePercentage : ℚ
  overallProjectCoveragePercentage : Option ℚ
  description : String
  errorMessage : Option String
deriving DecidableEq

/-- `CoverageGating.evaluate`.  The description and error strings carry the
structure of the originals with the interpolated numbers elided, which no
claim inspects. -/
def evaluate (analysis : CoverageAnalysis) (lcovReport : LcovReport)
    (threshold : ℚ) : GatingResult :=
  let prCoveragePercentage :=
    analysis.summary.overallCoverage.overallCoveragePercentage
  let overallProjectCoveragePercentage : ℚ :=
    if 0 < lcovReport.summary.linesFound then
      (jsRound (((lcovReport.summary.linesHit : ℚ) /
        (lcovReport.summary.linesFound : ℚ)) * 100) : ℚ)
    else 100
  if threshold = 0 then
    let meets : Bool := decide (prCoveragePercentage ≥ overallProjectCoveragePercentage)
    { meetsThreshold := meets
      threshold := threshold
      mode := "baseline"
      prCoveragePercentage := prCoveragePercentage
      overallProjectCoveragePercentage := some overallProjectCoveragePercentage
      description :=
        if meets then
          "✅ PR coverage meets or exceeds overall project coverage"
        else "❌ PR coverage is below overall project coverage"
      errorMessage :=
        if meets then none
        else some "Coverage gating failed: PR changes coverage is lower than overall project coverage" }
  else
    let meets : Bool := decide (prCoveragePercentage ≥ threshold)
    { meetsThreshold := meets
      threshold := threshold
      mode := "standard"
      prCoveragePercentage := prCoveragePercentage
      overallProjectCoveragePercentage := some overallProjectCoveragePercentage
      description :=
        if meets then "✅ PR coverage meets or exceeds threshold"
        else "❌ PR coverage is below threshold"
      errorMessage :=
        if meets then none
        else some "Coverage gating failed: PR changes coverage is below threshold" }

/-! ## `ChecksService.groupConsecutiveLines` of `checksService.ts` -/

/-- `Array.prototype.sort` with comparator `(a, b) => a - b`: on integers the
result is the ascending sorted rearrangement, here realised by a stable
insertion sort. -/
def sortInts (lines : List Int) : List Int := lines.insertionSort (· ≤ ·)

/-- The scan of `groupConsecutiveLines`: `cur` is the current group (always
nonempty), `prev` the previously seen element (`sorted[i - 1]`, which is the
last element of `cur`), `rest` the unprocessed tail of the sorted input. -/
def gclLoop (prev : Int) (cur : List Int) : List Int → List (List Int)
  | [] => [cur]
  | x :: xs =>
    if x = prev + 1 then gclLoop x (cur ++ [x]) xs
    else cur :: gclLoop x [x] xs

/-- `ChecksService.groupConsecutiveLines`. -/
def groupConsecutiveLines (lines : List Int) : List (List Int) :=
  match sortInts lines with
  | [] => []
  | x :: xs => gclLoop x [x] xs

/-! ## `TreemapGenerator` of `treemapGenerator.ts` -/

/-- `TreemapNode` of `treemapGenerator.ts`.  `value` and `lineCount` can be
`NaN` when a function's declaration line was `NaN`; the coverage
classification union type is kept as a string. -/
structure TreemapNode where
  name : String
  file : String
  value : OInt
  coverage : String
  lineCount : OInt
  coveredLines : OInt
  functionName : Option String
deriving DecidableEq

/-- `TreemapData` of `treemapGenerator.ts`. -/
structure TreemapData where
  name : String
  children : List TreemapNode
deriving DecidableEq

/-- `path.basename`: the part after the last `/`. -/
def basename (s : String) : String :=
  String.mk ((splitOnChar '/' s.toList).getLastD [])

/-- The in-place `fileCoverage.functions.sort((a, b) => a.line - b.line)`
performed inside `getFunctionLineCount`: a stable sort by declaration line.
Comparator behaviour on `NaN` lines is unspecified in JS; no claim exercises
it. -/
def sortFuncs (functions : List FunctionCoverage) : List FunctionCoverage :=
  functions.insertionSort (fun a b => ¬ oLtP b.line a.line)

/-- JS `Array.prototype.findIndex` (as an `Option`; the JS `-1` sentinel is
`none`). -/
def jsFindIndex {α : Type} (p : α → Bool) : List α → Option Nat
  | [] => none
  | x :: xs => if p x then some 0 else (jsFindIndex p xs).map (· + 1)

/-- `TreemapGenerator.getFunctionLineCount`. -/
def getFunctionLineCount (func : FunctionCoverage) (fileCoverage : FileCoverage) :
    OInt :=
  let functions := sortFuncs fileCoverage.functions
  match jsFindIndex (fun f => f.name == func.name && oEqB f.line func.line) functions with
  | none => some 10
  | some funcIndex =>
    match functions[funcIndex]?, functions[funcIndex + 1]? with
    | some currentFunc, some nextFunc =>
      oMax (oSub nextFunc.line currentFunc.line) (some 1)
    | some currentFunc, none =>
      let maxLine := (fileCoverage.lines.map (fun l => l.line)).foldl oMax
        (oAdd currentFunc.line (some 10))
      oMax (oSub maxLine currentFunc.line) (some 1)
    | none, _ => some 10

/-- `TreemapGenerator.getFunctionCoveredLines`. -/
def getFunctionCoveredLines (func : FunctionCoverage)
    (fileCoverage : FileCoverage) : Nat :=
  let functionLineCount := getFunctionLineCount func fileCoverage
  let functionStartLine := func.line
  let functionEndLine := oAdd functionStartLine functionLineCount
  (fileCoverage.lines.filter (fun l =>
    oGeB l.line functionStartLine && oLtB l.line functionEndLine &&
      oPosB l.hit)).length

/-- The node emitted for one function of a covered file. -/
def functionNode (filePath : String) (fileCoverage : FileCoverage)
    (func : FunctionCoverage) : TreemapNode :=
  let functionLines := getFunctionLineCount func fileCoverage
  let coveredLines := getFunctionCoveredLines func fileCoverage
  { name := basename filePath ++ "::" ++ func.name
    file := filePath
    value := oMax functionLines (some 1)
    coverage :=
      if coveredLines = 0 then "none"
      else if oEqB (some (coveredLines : Int)) functionLines then "full"
      else "partial"
    lineCount := functionLines
    coveredLines := some (coveredLines : Int)
    functionName := some func.name }

/-- The sequence of functions actually visited by the
`for (const func of file.coverage.functions)` loop: `getFunctionLineCount`
sorts `fileCoverage.functions` in place during the first iteration, so the
loop sees the original first element and then the sorted array from index 1
on.  (The JS mutation also persists in the report object itself; the model
treats each changed file's iteration independently, which coincides with the
source unless the same report entry is aliased by two changed files — a
situation no claim exercises.) -/
def visitedFunctions (functions : List FunctionCoverage) : List FunctionCoverage :=
  match functions with
  | [] => []
  | f :: _ => f :: (sortFuncs functions).drop 1

/-- The treemap nodes contributed by one changed file in
`TreemapGenerator.generateTreemapData`. -/
def fileNodes (file : FileChangeWithCoverage) : List TreemapNode :=
  match file.coverage with
  | none =>
    [{ name := basename file.path
       file := file.path
       value := some (max (file.analysis.totalLines : Int) 1)
       coverage := "none"
       lineCount := some (file.analysis.totalLines : Int)
       coveredLines := some 0
       functionName := none }]
  | some coverage =>
    if coverage.functions.isEmpty then
      [{ name := basename file.path
         file := file.path
         value := some (max (file.analysis.totalLines : Int) 1)
         coverage :=
           if file.analysis.linesCoveragePercentage / 100 = 0 then "none"
           else if file.analysis.linesCoveragePercentage / 100 = 1 then "full"
           else "partial"
         lineCount := some (file.analysis.totalLines : Int)
         coveredLines := some (file.analysis.coveredLines : Int)
         functionName := none }]
    else
      (visitedFunctions coverage.functions).map (functionNode file.path coverage)

/-- `TreemapGenerator.generateTreemapData`. -/
def generateTreemapData (analysis : CoverageAnalysis) : TreemapData :=
  { name := "Coverage Analysis"
    children := analysis.changedFiles.flatMap fileNodes }

/-! ## Invariant predicates and concrete inputs used by the theorems -/

/-- The derived-count invariant of a stored file record: every `found` is
the list length and every `hit` counts the entries whose hit (for branches:
taken) value is greater than zero. -/
def goodFile (fc : FileCoverage) : Prop :=
  fc.summary.functionsFound = fc.functions.length ∧
  fc.summary.functionsHit = (fc.functions.filter (fun f => oPosB f.hit)).length ∧
  fc.summary.linesFound = fc.lines.length ∧
  fc.summary.linesHit = (fc.lines.filter (fun l => oPosB l.hit)).length ∧
  fc.summary.branchesFound = fc.branches.length ∧
  fc.summary.branchesHit = (fc.branches.filter (fun b => oPosB b.taken)).length

instance : DecidablePred goodFile := fun fc => by unfold goodFile; infer_instance

/-- Placeholder entry for out-of-range `getD` indexing in statements. -/
def defaultFCW : FileChangeWithCoverage :=
  { path := "", status := "", coverage := none, analysis := emptyFileAnalysis }

/-- A report entry with a single fully covered line (1/1). -/
def covOneLine : FileCoverage :=
  { path := "a.ts", functions := [], lines := [{ line := some 1, hit := some 1 }]
    branches := [], summary := ⟨0, 0, 1, 1, 0, 0⟩ }

/-- A report entry with one hundred lines, none covered (0/100). -/
def covHundred : FileCoverage :=
  { path := "b.ts", functions := []
    lines := (List.range 100).map (fun i => { line := some ((i : Int) + 1), hit := some 0 })
    branches := [], summary := ⟨0, 0, 100, 0, 0, 0⟩ }

/-- Changeset with the two files of the aggregation example. -/
def csAB : Changeset :=
  { baseCommit := "base", headCommit := "head", targetBranch := "main"
    files := [{ path := "a.ts", status := "modified" }, { path := "b.ts", status := "modified" }]
    totalFiles := 2 }

/-- Report for the aggregation example: 1/1 lines in `a.ts`, 0/100 in `b.ts`. -/
def repAB : LcovReport :=
  { files := [("a.ts", covOneLine), ("b.ts", covHundred)]
    summary := ⟨2, 0, 0, 101, 1, 0, 0⟩ }

/-- A report entry with zero lines, functions and branches found. -/
def covEmpty : FileCoverage :=
  { path := "a.ts", functions := [], lines := [], branches := []
    summary := ⟨0, 0, 0, 0, 0, 0⟩ }

/-- Changeset with one file present in the report (with empty coverage) and
one file absent from it. -/
def csC2 : Changeset :=
  { baseCommit := "b", headCommit := "h", targetBranch := "main"
    files := [{ path := "a.ts", status := "modified" },
              { path := "missing.ts", status := "added" }]
    totalFiles := 2 }

/-- Report for the present/absent distinction example. -/
def repC2 : LcovReport :=
  { files := [("a.ts", covEmpty)], summary := ⟨1, 0, 0, 0, 0, 0, 0⟩ }

/-- Changeset with a single changed file, fully uncovered in the report. -/
def csB : Changeset :=
  { baseCommit := "b", headCommit := "h", targetBranch := "main"
    files := [{ path := "b.ts", status := "modified" }], totalFiles := 1 }

/-- Report giving `b.ts` 0/100 line coverage. -/
def repB : LcovReport :=
  { files := [("b.ts", covHundred)], summary := ⟨1, 0, 0, 100, 0, 0, 0⟩ }

/-- The extent-inference example: functions declared at lines 5 and 20,
while the recorded lines reach up to line 30. -/
def covExtent : FileCoverage :=
  { path := "x.ts"
    functions := [{ name := "f", line := some 5, hit := some 1 },
                  { name := "g", line := some 20, hit := some 0 }]
    lines := [{ line := some 5, hit := some 1 }, { line := some 30, hit := some 0 }]
    branches := [], summary := ⟨2, 1, 2, 1, 0, 0⟩ }

/-- Extent example with recorded lines only up to 25: the `line + 10` term
still participates in the maximum for the last function. -/
def covExtent2 : FileCoverage :=
  { path := "x.ts"
    functions := [{ name := "f", line := some 5, hit := some 1 },
                  { name := "g", line := some 20, hit := some 0 }]
    lines := [{ line := some 25, hit := some 1 }]
    branches := [], summary := ⟨2, 1, 1, 1, 0, 0⟩ }

/-- A covered file whose function list is *not* in declaration-line order:
`g` (line 20) is declared in the report before `f` (line 5). -/
def covX : FileCoverage :=
  { path := "x.ts"
    functions := [{ name := "g", line := some 20, hit := some 1 },
                  { name := "f", line := some 5, hit := some 0 }]
    lines := [{ line := some 5, hit := some 1 }, { line := some 30, hit := some 0 }]
    branches := [], summary := ⟨2, 1, 2, 1, 0, 0⟩ }

/-- Changeset with the single file `x.ts`. -/
def csX : Changeset :=
  { baseCommit := "b", headCommit := "h", targetBranch := "main"
    files := [{ path := "x.ts", status := "modified" }], totalFiles := 1 }

/-- Report mapping `x.ts` to the out-of-order function list. -/
def repX : LcovReport :=
  { files := [("x.ts", covX)], summary := ⟨1, 2, 1, 2, 1, 0, 0⟩ }

/-- An LCOV input whose only file block lacks the trailing end-of-record
marker. -/
def c4content : String := "SF:a.ts\nFN:5,foo\nFNDA:2,foo\nDA:5,2\nDA:6,0\nBRDA:5,0,0,-"

/-- The file record that parsing `c4content` stores. -/
def c4file : FileCoverage :=
  { path := "a.ts"
    functions := [{ name := "foo", line := some 5, hit := some 2 }]
    lines := [{ line := some 5, hit := some 2 }, { line := some 6, hit := some 0 }]
    branches := [{ line := some 5, block := some 0, branch := some 0, taken := some 0 }]
    summary := ⟨1, 1, 2, 1, 1, 0⟩ }

/-! ## Rounding lemmas -/

theorem jsRound_nonneg {q : ℚ} (h : 0 ≤ q) : 0 ≤ jsRound q := by
  unfold jsRound
  exact Int.le_floor.mpr (by push_cast; linarith)

theorem round2_nonneg {q : ℚ} (h : 0 ≤ q) : 0 ≤ round2 q := by
  unfold round2
  have h1 : (0 : ℤ) ≤ jsRound (q * 100) := jsRound_nonneg (by positivity)
  have h2 : (0 : ℚ) ≤ (jsRound (q * 100) : ℚ) := by exact_mod_cast h1
  positivity

theorem rawPct_nonneg (hit found : Nat) : 0 ≤ rawPct hit found := by
  unfold rawPct
  split
  · positivity
  · norm_num

theorem round2_hundred : round2 100 = 100 := by
  norm_num [round2, jsRound]

/-! ## Region grouper lemmas -/

theorem gclLoop_flatten (rest : List Int) :
    ∀ prev cur, (gclLoop prev cur rest).flatten = cur ++ rest := by
  induction rest with
  | nil => intro prev cur; simp [gclLoop]
  | cons x xs ih =>
    intro prev cur
    by_cases h : x = prev + 1 <;> simp [gclLoop, h, ih]

theorem groupConsecutiveLines_flatten (ls : List Int) :
    (groupConsecutiveLines ls).flatten = sortInts ls := by
  unfold groupConsecutiveLines
  cases h : sortInts ls with
  | nil => simp
  | cons x xs => simp [gclLoop_flatten]

/-! ## Analyzer lemmas -/

theorem round2_rawPct (hit found : Nat) :
    round2 (rawPct hit found) =
      if found = 0 then (100 : ℚ)
      else round2 (((hit : ℚ) / (found : ℚ)) * 100) := by
  unfold rawPct
  rcases Nat.eq_zero_or_pos found with h0 | h0
  · simp [h0, round2_hundred]
  · simp [h0, Nat.pos_iff_ne_zero.mp h0]

theorem foldl_summaryStep (l : List FileChangeWithCoverage) (a : SummaryAcc) :
    l.foldl summaryStep a =
      ⟨a.totalLines + (l.map (fun f => f.analysis.totalLines)).sum,
       a.coveredLines + (l.map (fun f => f.analysis.coveredLines)).sum,
       a.totalFunctions + (l.map (fun f => f.analysis.totalFunctions)).sum,
       a.coveredFunctions + (l.map (fun f => f.analysis.coveredFunctions)).sum,
       a.totalBranches + (l.map (fun f => f.analysis.totalBranches)).sum,
       a.coveredBranches + (l.map (fun f => f.analysis.coveredBranches)).sum⟩ := by
  induction l generalizing a with
  | nil => simp
  | cons f t ih =>
    simp only [List.foldl_cons, List.map_cons, List.sum_cons, ih, summaryStep,
      SummaryAcc.mk.injEq]
    omega

theorem calculateSummary_acc (l : List FileChangeWithCoverage) :
    l.foldl summaryStep ⟨0, 0, 0, 0, 0, 0⟩ =
      ⟨(l.map (fun f => f.analysis.totalLines)).sum,
       (l.map (fun f => f.analysis.coveredLines)).sum,
       (l.map (fun f => f.analysis.totalFunctions)).sum,
       (l.map (fun f => f.analysis.coveredFunctions)).sum,
       (l.map (fun f => f.analysis.totalBranches)).sum,
       (l.map (fun f => f.analysis.coveredBranches)).sum⟩ := by
  rw [foldl_summaryStep]
  simp

/-! ## Claim theorems (first group) -/

/-- The aggregate block produced by `calculateSummary` is the field-wise sum
of the per-file analysis counts, with each percentage derived from the sums. -/
theorem calculateSummary_overall (l : List FileChangeWithCoverage) :
    (calculateSummary l).overallCoverage =
      { totalLines := (l.map (fun f => f.analysis.totalLines)).sum
        coveredLines := (l.map (fun f => f.analysis.coveredLines)).sum
        totalFunctions := (l.map (fun f => f.analysis.totalFunctions)).sum
        coveredFunctions := (l.map (fun f => f.analysis.coveredFunctions)).sum
        totalBranches := (l.map (fun f => f.analysis.totalBranches)).sum
        coveredBranches := (l.map (fun f => f.analysis.coveredBranches)).sum
        linesCoveragePercentage := round2 (rawPct
          (l.map (fun f => f.analysis.coveredLines)).sum
          (l.map (fun f => f.analysis.totalLines)).sum)
        functionsCoveragePercentage := round2 (rawPct
          (l.map (fun f => f.analysis.coveredFunctions)).sum
          (l.map (fun f => f.analysis.totalFunctions)).sum)
        branchesCoveragePercentage := round2 (rawPct
          (l.map (fun f => f.analysis.coveredBranches)).sum
          (l.map (fun f => f.analysis.totalBranches)).sum)
        overallCoveragePercentage := round2 (rawPct
          ((l.map (fun f => f.analysis.coveredLines)).sum +
            (l.map (fun f => f.analysis.coveredFunctions)).sum +
            (l.map (fun f => f.analysis.coveredBranches)).sum)
          ((l.map (fun f => f.analysis.totalLines)).sum +
            (l.map (fun f => f.analysis.totalFunctions)).sum +
            (l.map (fun f => f.analysis.totalBranches)).sum)) } := by
  simp only [calculateSummary, calculateSummary_acc]

/-- Claim C10: on input with duplicate line numbers the grouper starts a new
run at each duplicate — `[3, 3, 4]` yields `[[3], [3, 4]]` — while the
flattened output still equals the input sorted as a multiset; the runs are
then not maximal consecutive spans (the boundary between `[3]` and `[3, 4]`
is not a gap). -/
theorem groupConsecutiveLines_duplicates :
    groupConsecutiveLines [3, 3, 4] = [[3], [3, 4]] ∧
    (∀ ls : List Int, (groupConsecutiveLines ls).flatten = sortInts ls) ∧
    sortInts [3, 3, 4] = [3, 3, 4] ∧
    ¬ List.Chain' (fun r s => ∀ a ∈ r.getLast?, ∀ b ∈ s.head?, a + 1 < b)
      (groupConsecutiveLines [3, 3, 4]) := by
  refine ⟨by decide, groupConsecutiveLines_flatten, by decide, ?_⟩
  intro h
  rw [show groupConsecutiveLines [3, 3, 4] = [[3], [3, 4]] from by decide] at h
  have h1 := (List.chain'_cons.mp h).1
  have h2 := h1 3 (by simp) 3 (by simp)
  omega

/-- Claim C7 (amended): `meetsCoverageThreshold` is a plain comparison with
no baseline parameter and no error path; invoked with threshold exactly 0 on
any analyzer result it returns `true` (the aggregate overall percentage is
never negative), i.e. threshold 0 is treated as "always pass" rather than
requiring an external baseline or raising a UsageError.  The baseline
comparison lives in the separate gating engine, which computes the baseline
from the report itself. -/
theorem meetsCoverageThreshold_zero_always_passes (cs : Changeset)
    (rep : LcovReport) : meetsCoverageThreshold (analyze cs rep) 0 = true := by
  unfold meetsCoverageThreshold
  simp only [decide_eq_true_eq, ge_iff_le, analyze, calculateSummary]
  exact round2_nonneg (rawPct_nonneg _ _)

/-- Claim C7 (counterexample): invoking the threshold check with threshold
exactly 0 and no external baseline anywhere does not raise any error — it
returns `true` even for a changeset whose aggregate overall coverage is 0%,
refuting the claim that such a call is a UsageError. -/
theorem meetsCoverageThreshold_zero_counterexample :
    meetsCoverageThreshold (analyze csB repB) 0 = true ∧
    (analyze csB repB).summary.overallCoverage.overallCoveragePercentage = 0 := by
  have h : (analyze csB repB).summary.overallCoverage.overallCoveragePercentage = 0 := by
    norm_num [analyze, calculateSummary, analyzeFile, lookupFile, csB, repB,
      covHundred, summaryStep, calculateFileAnalysis, rawPct, round2, jsRound,
      List.find?, List.foldl]
  refine ⟨?_, h⟩
  unfold meetsCoverageThreshold
  rw [h]
  norm_num

/-- Claim C3: `CoverageGating.evaluate` selects mode `standard` for nonzero
threshold (pass iff the aggregate overall percentage meets the threshold) and
mode `baseline` for threshold 0, where the baseline is the report's global
`linesHit / linesFound × 100` rounded (100 when `linesFound` is 0) and the
pass flag compares the PR percentage against that baseline; in both modes the
error message is present exactly when the pass flag is false. -/
theorem evaluate_gating_modes (a : CoverageAnalysis) (rep : LcovReport) (t : ℚ) :
    ((evaluate a rep t).mode = if t = 0 then "baseline" else "standard") ∧
    ((evaluate a rep t).meetsThreshold = true ↔
      a.summary.overallCoverage.overallCoveragePercentage ≥
        (if t = 0 then
          (if rep.summary.linesFound = 0 then (100 : ℚ)
           else (jsRound (((rep.summary.linesHit : ℚ) /
             (rep.summary.linesFound : ℚ)) * 100) : ℚ))
         else t)) ∧
    ((evaluate a rep t).overallProjectCoveragePercentage =
      some (if rep.summary.linesFound = 0 then (100 : ℚ)
            else (jsRound (((rep.summary.linesHit : ℚ) /
              (rep.summary.linesFound : ℚ)) * 100) : ℚ))) ∧
    ((evaluate a rep t).errorMessage.isSome = true ↔
      (evaluate a rep t).meetsThreshold = false) := by
  have hbase :
      (if 0 < rep.summary.linesFound then
        ((jsRound (((rep.summary.linesHit : ℚ) /
          (rep.summary.linesFound : ℚ)) * 100) : ℚ))
       else 100) =
      (if rep.summary.linesFound = 0 then (100 : ℚ)
       else (jsRound (((rep.summary.linesHit : ℚ) /
         (rep.summary.linesFound : ℚ)) * 100) : ℚ)) := by
    rcases Nat.eq_zero_or_pos rep.summary.linesFound with h0 | h0
    · simp [h0]
    · simp [h0, Nat.pos_iff_ne_zero.mp h0]
  rw [← hbase]
  by_cases ht : t = 0
  · refine ⟨by simp [evaluate, ht], ?_, ?_, ?_⟩
    · simp [evaluate, ht, ge_iff_le]
    · simp [evaluate, ht]
    · by_cases hm : (if 0 < rep.summary.linesFound then
          ((jsRound (((rep.summary.linesHit : ℚ) /
            (rep.summary.linesFound : ℚ)) * 100) : ℚ))
         else 100) ≤ a.summary.overallCoverage.overallCoveragePercentage <;>
        simp [evaluate, ht, hm]
  · refine ⟨by simp [evaluate, ht], ?_, ?_, ?_⟩
    · simp [evaluate, ht, ge_iff_le]
    · simp [evaluate, ht]
    · by_cases hm : t ≤ a.summary.overallCoverage.overallCoveragePercentage <;>
        simp [evaluate, ht, hm]

/-- Claim C1: the aggregate summary of `CoverageAnalyzer.analyze` sums each
raw count over all changed files, derives every aggregate percentage from
those sums (covered/total × 100, rounded to 2 decimal places, 100 when the
denominator is 0), and the aggregate overall percentage is the weighted
hits/founds ratio, never the mean of per-file percentages: one file with 1/1
lines and one with 0/100 lines aggregate to 0.99, not 50. -/
theorem analyze_aggregate_weighted (cs : Changeset) (rep : LcovReport) :
    ((analyze cs rep).summary.overallCoverage.totalLines =
      ((analyze cs rep).changedFiles.map (fun f => f.analysis.totalLines)).sum) ∧
    ((analyze cs rep).summary.overallCoverage.coveredLines =
      ((analyze cs rep).changedFiles.map (fun f => f.analysis.coveredLines)).sum) ∧
    ((analyze cs rep).summary.overallCoverage.totalFunctions =
      ((analyze cs rep).changedFiles.map (fun f => f.analysis.totalFunctions)).sum) ∧
    ((analyze cs rep).summary.overallCoverage.coveredFunctions =
      ((analyze cs rep).changedFiles.map (fun f => f.analysis.coveredFunctions)).sum) ∧
    ((analyze cs rep).summary.overallCoverage.totalBranches =
      ((analyze cs rep).changedFiles.map (fun f => f.analysis.totalBranches)).sum) ∧
    ((analyze cs rep).summary.overallCoverage.coveredBranches =
      ((analyze cs rep).changedFiles.map (fun f => f.analysis.coveredBranches)).sum) ∧
    ((analyze cs rep).summary.overallCoverage.linesCoveragePercentage =
      if (analyze cs rep).summary.overallCoverage.totalLines = 0 then (100 : ℚ)
      else round2 ((((analyze cs rep).summary.overallCoverage.coveredLines : ℚ) /
        ((analyze cs rep).summary.overallCoverage.totalLines : ℚ)) * 100)) ∧
    ((analyze cs rep).summary.overallCoverage.functionsCoveragePercentage =
      if (analyze cs rep).summary.overallCoverage.totalFunctions = 0 then (100 : ℚ)
      else round2 ((((analyze cs rep).summary.overallCoverage.coveredFunctions : ℚ) /
        ((analyze cs rep).summary.overallCoverage.totalFunctions : ℚ)) * 100)) ∧
    ((analyze cs rep).summary.overallCoverage.branchesCoveragePercentage =
      if (analyze cs rep).summary.overallCoverage.totalBranches = 0 then (100 : ℚ)
      else round2 ((((analyze cs rep).summary.overallCoverage.coveredBranches : ℚ) /
        ((analyze cs rep).summary.overallCoverage.totalBranches : ℚ)) * 100)) ∧
    ((analyze cs rep).summary.overallCoverage.overallCoveragePercentage =
      if (analyze cs rep).summary.overallCoverage.totalLines +
          (analyze cs rep).summary.overallCoverage.totalFunctions +
          (analyze cs rep).summary.overallCoverage.totalBranches = 0 then (100 : ℚ)
      else round2 (((((analyze cs rep).summary.overallCoverage.coveredLines +
          (analyze cs rep).summary.overallCoverage.coveredFunctions +
          (analyze cs rep).summary.overallCoverage.coveredBranches : Nat) : ℚ) /
        (((analyze cs rep).summary.overallCoverage.totalLines +
          (analyze cs rep).summary.overallCoverage.totalFunctions +
          (analyze cs rep).summary.overallCoverage.totalBranches : Nat) : ℚ)) * 100)) ∧
    ((analyze csAB repAB).summary.overallCoverage.overallCoveragePercentage =
      99 / 100) ∧
    ((analyze csAB repAB).summary.overallCoverage.overallCoveragePercentage ≠ 50) := by
  have hAB : (analyze csAB repAB).summary.overallCoverage.overallCoveragePercentage =
      99 / 100 := by
    have f1 : lookupFile repAB "a.ts" = some covOneLine := by decide
    have f2 : lookupFile repAB "b.ts" = some covHundred := by decide
    norm_num [analyze, csAB, analyzeFile, f1, f2, covOneLine, covHundred,
      calculateFileAnalysis, calculateSummary, summaryStep, rawPct, round2, jsRound,
      List.foldl]
  rw [show (analyze cs rep).summary.overallCoverage =
    (calculateSummary ((analyze cs rep).changedFiles)).overallCoverage from rfl,
    calculateSummary_overall]
  refine ⟨rfl, rfl, rfl, rfl, rfl, rfl, round2_rawPct _ _, round2_rawPct _ _,
    round2_rawPct _ _, round2_rawPct _ _, hAB, ?_⟩
  rw [hAB]
  norm_num

/-- Claim C2: for every changed file, a path present in the report gets the
vacuous-100 rule on every dimension whose found count is 0 (and on the
overall percentage when all three found counts are 0), while a path absent
from the report gets the all-zero analysis — so a report entry with 0 lines
found (100%) is distinguished from a missing report entry (0%). -/
theorem analyze_per_file_rules :
    (∀ (cs : Changeset) (rep : LcovReport) (i : ℕ) (h : i < cs.files.length),
      (∀ cov, lookupFile rep (cs.files.get ⟨i, h⟩).path = some cov →
        ((analyze cs rep).changedFiles.getD i defaultFCW).coverage = some cov ∧
        (cov.summary.linesFound = 0 →
          ((analyze cs rep).changedFiles.getD i
            defaultFCW).analysis.linesCoveragePercentage = 100) ∧
        (cov.summary.functionsFound = 0 →
          ((analyze cs rep).changedFiles.getD i
            defaultFCW).analysis.functionsCoveragePercentage = 100) ∧
        (cov.summary.branchesFound = 0 →
          ((analyze cs rep).changedFiles.getD i
            defaultFCW).analysis.branchesCoveragePercentage = 100) ∧
        (cov.summary.linesFound + cov.summary.functionsFound +
            cov.summary.branchesFound = 0 →
          ((analyze cs rep).changedFiles.getD i
            defaultFCW).analysis.overallCoveragePercentage = 100)) ∧
      (lookupFile rep (cs.files.get ⟨i, h⟩).path = none →
        ((analyze cs rep).changedFiles.getD i defaultFCW).coverage = none ∧
        ((analyze cs rep).changedFiles.getD i defaultFCW).analysis =
          emptyFileAnalysis)) ∧
    ((analyze csC2 repC2).changedFiles.map
      (fun e => e.analysis.overallCoveragePercentage) = [100, 0]) := by
  constructor
  · intro cs rep i h
    have hentry : (analyze cs rep).changedFiles.getD i defaultFCW =
        analyzeFile rep (cs.files.get ⟨i, h⟩) := by
      show (cs.files.map (analyzeFile rep)).getD i defaultFCW = _
      rw [List.getD_eq_getElem?_getD, List.getElem?_map,
        List.getElem?_eq_getElem h]
      simp [List.get_eq_getElem]
    rw [hentry]
    constructor
    · intro cov hcov
      simp only [analyzeFile, hcov]
      refine ⟨by trivial, ?_, ?_, ?_, ?_⟩ <;> intro hz <;>
        simp [calculateFileAnalysis, round2_rawPct, hz]
    · intro hnone
      simp only [analyzeFile, hnone]
      exact ⟨by trivial, by trivial⟩
  · have g1 : lookupFile repC2 "a.ts" = some covEmpty := by decide
    have g2 : lookupFile repC2 "missing.ts" = none := by decide
    norm_num [analyze, csC2, analyzeFile, g1, g2, covEmpty, calculateFileAnalysis,
      rawPct, round2, jsRound, emptyFileAnalysis]

/-- Witness for C2 at a concrete changeset: the file with an empty report
entry analyses to 100% overall, the file missing from the report to the
all-zero analysis. -/
theorem analyze_per_file_rules_witness :
    0 < csC2.files.length ∧
    ((analyze csC2 repC2).changedFiles.getD 0
      defaultFCW).analysis.overallCoveragePercentage = 100 ∧
    ((analyze csC2 repC2).changedFiles.getD 1 defaultFCW).analysis =
      emptyFileAnalysis := by
  have h := analyze_per_file_rules
  refine ⟨by decide, ?_, ?_⟩
  · exact ((h.1 csC2 repC2 0 (by decide)).1 covEmpty (by decide)).2.2.2.2 (by decide)
  · exact ((h.1 csC2 repC2 1 (by decide)).2 (by decide)).2

/-! ## Parser lemmas -/

theorem parseLine_eor (st : ParseState) :
    parseLine st ("end_of_record".toList) =
      if flushable st then { st with files := storeCurrent st, currentFile := none }
      else st := by
  have h1 : (("SF:".toList).isPrefixOf ("end_of_record".toList)) = false := by decide
  have h2 : (("FN:".toList).isPrefixOf ("end_of_record".toList)) = false := by decide
  have h3 : (("FNDA:".toList).isPrefixOf ("end_of_record".toList)) = false := by decide
  have h4 : (("DA:".toList).isPrefixOf ("end_of_record".toList)) = false := by decide
  have h5 : (("BRDA:".toList).isPrefixOf ("end_of_record".toList)) = false := by decide
  simp [parseLine, h1, h2, h3, h4, h5]

theorem finishParse_parseLine_eor (st : ParseState) :
    finishParse (parseLine st ("end_of_record".toList)) = finishParse st := by
  rw [parseLine_eor]
  by_cases h : flushable st = true
  · simp only [h, if_true, finishParse]
    have : storeCurrent { st with files := storeCurrent st, currentFile := none } =
        storeCurrent st := by
      simp [storeCurrent]
    rw [this]
  · simp [h]

theorem parseLcovLines_append_eor (ls : List (List Char)) :
    parseLcovLines (ls ++ ["end_of_record".toList]) = parseLcovLines ls := by
  unfold parseLcovLines
  rw [List.foldl_append]
  exact finishParse_parseLine_eor _

theorem goodFile_finalize (p : String) (fns : List FunctionCoverage)
    (lns : List LineCoverage) (brs : List BranchCoverage) :
    goodFile (finalizeFileCoverage p fns lns brs) := by
  exact ⟨rfl, rfl, rfl, rfl, rfl, rfl⟩

theorem mem_mapSet {m : List (String × FileCoverage)} {k : String}
    {v : FileCoverage} {e : String × FileCoverage} (h : e ∈ mapSet m k v) :
    e ∈ m ∨ e = (k, v) := by
  induction m with
  | nil =>
    simp only [mapSet, List.mem_singleton] at h
    exact Or.inr h
  | cons hd tl ih =>
    obtain ⟨k', v'⟩ := hd
    simp only [mapSet] at h
    split_ifs at h with hk
    · rcases List.mem_cons.mp h with h | h
      · exact Or.inr h
      · exact Or.inl (List.mem_cons_of_mem _ h)
    · rcases List.mem_cons.mp h with h | h
      · exact Or.inl (h ▸ List.mem_cons_self _ _)
      · rcases ih h with h' | h'
        · exact Or.inl (List.mem_cons_of_mem _ h')
        · exact Or.inr h'

theorem storeCurrent_good {st : ParseState}
    (h : ∀ e ∈ st.files, goodFile e.2) : ∀ e ∈ storeCurrent st, goodFile e.2 := by
  intro e he
  unfold storeCurrent at he
  rcases hst : st.currentFile with _ | p
  · rw [hst] at he
    dsimp only at he
    exact h e he
  · rw [hst] at he
    dsimp only at he
    split_ifs at he with hp
    · exact h e he
    · rcases mem_mapSet he with h' | h'
      · exact h e h'
      · rw [h']
        exact goodFile_finalize _ _ _ _

set_option linter.unreachableTactic false in
set_option linter.unusedTactic false in
theorem parseLine_files_cases (st : ParseState) (l : List Char) :
    (parseLine st l).files = st.files ∨ (parseLine st l).files = storeCurrent st := by
  unfold parseLine
  split_ifs <;>
    first
      | (left; rfl)
      | (right; rfl)
      | (split <;> first | (left; rfl) | (right; rfl))

theorem parseLine_good {st : ParseState} {l : List Char}
    (h : ∀ e ∈ st.files, goodFile e.2) :
    ∀ e ∈ (parseLine st l).files, goodFile e.2 := by
  rcases parseLine_files_cases st l with hc | hc <;> rw [hc]
  · exact h
  · exact storeCurrent_good h

theorem foldl_parseLine_good (ls : List (List Char)) :
    ∀ st, (∀ e ∈ st.files, goodFile e.2) →
      ∀ e ∈ (ls.foldl parseLine st).files, goodFile e.2 := by
  induction ls with
  | nil => intro st h; exact h
  | cons l t ih => intro st h; exact ih _ (parseLine_good h)

theorem foldl_lcovSumStep (l : List (String × FileCoverage)) (a : ReportSummary) :
    l.foldl lcovSumStep a =
      ⟨a.totalFiles,
       a.functionsFound + (l.map (fun pf => pf.2.summary.functionsFound)).sum,
       a.functionsHit + (l.map (fun pf => pf.2.summary.functionsHit)).sum,
       a.linesFound + (l.map (fun pf => pf.2.summary.linesFound)).sum,
       a.linesHit + (l.map (fun pf => pf.2.summary.linesHit)).sum,
       a.branchesFound + (l.map (fun pf => pf.2.summary.branchesFound)).sum,
       a.branchesHit + (l.map (fun pf => pf.2.summary.branchesHit)).sum⟩ := by
  induction l generalizing a with
  | nil => simp
  | cons f t ih =>
    simp only [List.foldl_cons, List.map_cons, List.sum_cons, ih]
    simp only [lcovSumStep, ReportSummary.mk.injEq]
    refine ⟨by trivial, ?_, ?_, ?_, ?_, ?_, ?_⟩ <;> omega

theorem lcovCalculateSummary_spec (files : List (String × FileCoverage)) :
    lcovCalculateSummary files =
      ⟨files.length,
       (files.map (fun pf => pf.2.summary.functionsFound)).sum,
       (files.map (fun pf => pf.2.summary.functionsHit)).sum,
       (files.map (fun pf => pf.2.summary.linesFound)).sum,
       (files.map (fun pf => pf.2.summary.linesHit)).sum,
       (files.map (fun pf => pf.2.summary.branchesFound)).sum,
       (files.map (fun pf => pf.2.summary.branchesHit)).sum⟩ := by
  unfold lcovCalculateSummary
  rw [foldl_lcovSumStep]
  simp

/-- Claim C4: every file record stored by `LcovParser.parse` has derived
counts — each `found` equals the corresponding list length and each `hit`
counts the entries whose hit (branches: taken) value is positive — and the
report's global summary is the field-wise sum of the stored file summaries
with `totalFiles` the number of stored files. -/
theorem parse_derived_counts (content : String) :
    (∀ e ∈ (parse content).files, goodFile e.2) ∧
    (parse content).summary.totalFiles = (parse content).files.length ∧
    (parse content).summary.functionsFound =
      ((parse content).files.map (fun pf => pf.2.summary.functionsFound)).sum ∧
    (parse content).summary.functionsHit =
      ((parse content).files.map (fun pf => pf.2.summary.functionsHit)).sum ∧
    (parse content).summary.linesFound =
      ((parse content).files.map (fun pf => pf.2.summary.linesFound)).sum ∧
    (parse content).summary.linesHit =
      ((parse content).files.map (fun pf => pf.2.summary.linesHit)).sum ∧
    (parse content).summary.branchesFound =
      ((parse content).files.map (fun pf => pf.2.summary.branchesFound)).sum ∧
    (parse content).summary.branchesHit =
      ((parse content).files.map (fun pf => pf.2.summary.branchesHit)).sum := by
  have hfiles : (parse content).files =
      storeCurrent (((((splitOnChar '\n' content.toList).map jsTrim).filter
        (fun l => !l.isEmpty))).foldl parseLine initState) := rfl
  have hsum : (parse content).summary = lcovCalculateSummary (parse content).files := rfl
  constructor
  · rw [hfiles]
    exact storeCurrent_good (foldl_parseLine_good _ initState (by simp [initState]))
  · rw [hsum, lcovCalculateSummary_spec]
    exact ⟨rfl, rfl, rfl, rfl, rfl, rfl, rfl⟩

/-- Witness for C4: parsing a concrete report stores the record of `a.ts`,
and that record satisfies the derived-count invariant. -/
theorem parse_derived_counts_witness :
    ("a.ts", c4file) ∈ (parse c4content).files ∧ goodFile c4file :=
  ⟨by decide, (parse_derived_counts c4content).1 ("a.ts", c4file) (by decide)⟩

/-- Claim C9: an input whose last file block lacks the trailing
end-of-record marker parses exactly as if the marker were present (the open
accumulator is flushed and stored); the empty input yields a report with no
files and an all-zero summary; a concrete marker-less block is stored with
its line data. -/
theorem parse_flush_and_empty :
    (∀ ls : List (List Char),
      parseLcovLines (ls ++ ["end_of_record".toList]) = parseLcovLines ls) ∧
    parse "" = { files := [], summary := ⟨0, 0, 0, 0, 0, 0, 0⟩ } ∧
    (parse "SF:a.ts\nDA:1,1").files.map Prod.fst = ["a.ts"] ∧
    (parse "SF:a.ts\nDA:1,1").summary.linesFound = 1 ∧
    (parse "SF:a.ts\nDA:1,1").summary.linesHit = 1 :=
  ⟨parseLcovLines_append_eor, by decide, by decide, by decide, by decide⟩

/-! ## Region grouper: runs, separation and ordering -/

theorem gclLoop_runs (rest : List Int) :
    ∀ prev cur, cur ≠ [] → List.Chain' (fun a b => b = a + 1) cur →
      cur.getLast? = some prev →
      ∀ r ∈ gclLoop prev cur rest, r ≠ [] ∧ List.Chain' (fun a b => b = a + 1) r := by
  induction rest with
  | nil =>
    intro prev cur hne hch _ r hr
    simp only [gclLoop, List.mem_singleton] at hr
    subst hr
    exact ⟨hne, hch⟩
  | cons x xs ih =>
    intro prev cur hne hch hlast r hr
    by_cases hx : x = prev + 1
    · simp only [gclLoop, if_pos hx] at hr
      refine ih x (cur ++ [x]) (by simp) ?_ (List.getLast?_concat _) r hr
      refine List.chain'_append.mpr ⟨hch, List.chain'_singleton _, ?_⟩
      intro a ha b hb
      rw [hlast] at ha
      simp only [Option.mem_some_iff] at ha
      simp only [List.head?_cons, Option.mem_some_iff] at hb
      rw [← ha, ← hb]
      exact hx
    · simp only [gclLoop, if_neg hx] at hr
      rcases List.mem_cons.mp hr with h | h
      · subst h
        exact ⟨hne, hch⟩
      · exact ih x [x] (by simp) (List.chain'_singleton _) rfl r h

theorem gclLoop_head (rest : List Int) :
    ∀ prev cur, ∃ ext rs, gclLoop prev cur rest = (cur ++ ext) :: rs := by
  induction rest with
  | nil => intro prev cur; exact ⟨[], [], by simp [gclLoop]⟩
  | cons x xs ih =>
    intro prev cur
    by_cases hx : x = prev + 1
    · obtain ⟨ext, rs, h⟩ := ih x (cur ++ [x])
      refine ⟨[x] ++ ext, rs, ?_⟩
      simp only [gclLoop, if_pos hx, h, List.append_assoc]
    · exact ⟨[], gclLoop x [x] xs, by simp [gclLoop, hx]⟩

theorem gclLoop_sep (rest : List Int) :
    ∀ prev cur, List.Chain' (· < ·) (prev :: rest) →
      cur.getLast? = some prev →
      List.Chain' (fun r s => ∀ a ∈ r.getLast?, ∀ b ∈ s.head?, a + 1 < b)
        (gclLoop prev cur rest) := by
  induction rest with
  | nil => intro prev cur _ _; simp [gclLoop]
  | cons x xs ih =>
    intro prev cur hch hlast
    have hpx : prev < x := (List.chain'_cons.mp hch).1
    by_cases hx : x = prev + 1
    · simp only [gclLoop, if_pos hx]
      exact ih x (cur ++ [x]) (List.chain'_cons.mp hch).2 (List.getLast?_concat _)
    · simp only [gclLoop, if_neg hx]
      obtain ⟨ext, rs, heq⟩ := gclLoop_head xs x [x]
      rw [heq]
      refine List.chain'_cons.mpr ⟨?_, ?_⟩
      · intro a ha b hb
        rw [hlast] at ha
        simp only [Option.mem_some_iff] at ha
        have hhead : (([x] ++ ext) : List Int).head? = some x := rfl
        rw [hhead] at hb
        simp only [Option.mem_some_iff] at hb
        subst ha
        subst hb
        omega
      · rw [← heq]
        exact ih x [x] (List.chain'_cons.mp hch).2 rfl

theorem chain_succ_head_le_last (r : List Int)
    (hch : List.Chain' (fun a b => b = a + 1) r) :
    ∀ a ∈ r.head?, ∀ b ∈ r.getLast?, a ≤ b := by
  induction r with
  | nil => simp
  | cons x t ih =>
    intro a ha b hb
    simp only [List.head?_cons, Option.mem_some_iff] at ha
    subst ha
    cases t with
    | nil =>
      simp only [List.getLast?_singleton, Option.mem_some_iff] at hb
      omega
    | cons y t' =>
      have h1 : y = x + 1 := (List.chain'_cons.mp hch).1
      rw [List.getLast?_cons_cons] at hb
      have h2 := ih (List.chain'_cons.mp hch).2 y (by simp) b hb
      omega

theorem chain'_of_chain'_mem {α : Type} {R S : α → α → Prop} {P : α → Prop} :
    ∀ {l : List α}, (∀ x ∈ l, P x) → List.Chain' R l →
      (∀ x y, P x → P y → R x y → S x y) → List.Chain' S l := by
  intro l
  induction l with
  | nil => intros; exact List.chain'_nil
  | cons x t ih =>
    intro hP hch himp
    cases t with
    | nil => exact List.chain'_singleton _
    | cons y t' =>
      refine List.chain'_cons.mpr
        ⟨himp x y (hP x (by simp)) (hP y (by simp)) (List.chain'_cons.mp hch).1,
         ih (fun z hz => hP z (List.mem_cons_of_mem _ hz))
           (List.chain'_cons.mp hch).2 himp⟩

theorem sortInts_chain_lt {ls : List Int} (h : ls.Nodup) :
    List.Chain' (· < ·) (sortInts ls) := by
  have hs : List.Sorted (· ≤ ·) (sortInts ls) := List.sorted_insertionSort _ _
  have hn : (sortInts ls).Nodup := ((List.perm_insertionSort _ ls).nodup_iff).mpr h
  have hp : List.Pairwise (· < ·) (sortInts ls) :=
    (List.Pairwise.and hs hn).imp (fun hab => lt_of_le_of_ne hab.1 hab.2)
  exact hp.chain'

/-- Claim C5: on duplicate-free input the grouper returns the maximal runs
of consecutive integers: the flattened output is exactly the input sorted
ascending (a sorted permutation), every run is nonempty and strictly
consecutive, adjacent runs are separated by a gap of at least two, runs
appear in ascending order of first element, and the empty input yields the
empty result. -/
theorem groupConsecutiveLines_spec (ls : List Int) (hnd : ls.Nodup) :
    (groupConsecutiveLines ls).flatten = sortInts ls ∧
    ((groupConsecutiveLines ls).flatten).Perm ls ∧
    List.Pairwise (· ≤ ·) ((groupConsecutiveLines ls).flatten) ∧
    (∀ r ∈ groupConsecutiveLines ls, r ≠ [] ∧
      List.Chain' (fun a b => b = a + 1) r) ∧
    List.Chain' (fun r s => ∀ a ∈ r.getLast?, ∀ b ∈ s.head?, a + 1 < b)
      (groupConsecutiveLines ls) ∧
    List.Chain' (fun r s => ∀ a ∈ r.head?, ∀ b ∈ s.head?, a < b)
      (groupConsecutiveLines ls) ∧
    groupConsecutiveLines ([] : List Int) = [] := by
  have hflat := groupConsecutiveLines_flatten ls
  have hruns : ∀ r ∈ groupConsecutiveLines ls, r ≠ [] ∧
      List.Chain' (fun a b => b = a + 1) r := by
    unfold groupConsecutiveLines
    cases h : sortInts ls with
    | nil => simp
    | cons x xs =>
      exact gclLoop_runs xs x [x] (by simp) (List.chain'_singleton _) rfl
  have hsep : List.Chain' (fun r s => ∀ a ∈ r.getLast?, ∀ b ∈ s.head?, a + 1 < b)
      (groupConsecutiveLines ls) := by
    have hchain := sortInts_chain_lt hnd
    unfold groupConsecutiveLines
    cases h : sortInts ls with
    | nil => simp
    | cons x xs =>
      rw [h] at hchain
      exact gclLoop_sep xs x [x] hchain rfl
  refine ⟨hflat, ?_, ?_, hruns, hsep, ?_, by decide⟩
  · rw [hflat]
    exact List.perm_insertionSort _ ls
  · rw [hflat]
    exact List.sorted_insertionSort _ ls
  · refine chain'_of_chain'_mem
      (fun r hr => hruns r hr) hsep ?_
    intro r s hrP hsP hsep' a ha b hb
    rcases hrP with ⟨hrne, hrch⟩
    obtain ⟨aL, haL⟩ : ∃ aL, r.getLast? = some aL :=
      Option.isSome_iff_exists.mp (List.getLast?_isSome.mpr hrne)
    have h1 : a ≤ aL := chain_succ_head_le_last r hrch a ha aL (by rw [haL]; rfl)
    have h2 : aL + 1 < b := hsep' aL (by rw [haL]; rfl) b hb
    omega

/-- Witness for C5 at the spec's example: `[2, 3, 4, 6, 8, 9]` is
duplicate-free, groups to `[[2, 3, 4], [6], [8, 9]]`, and the flattened
output equals the sorted input. -/
theorem groupConsecutiveLines_spec_witness :
    ([2, 3, 4, 6, 8, 9] : List Int).Nodup ∧
    groupConsecutiveLines [2, 3, 4, 6, 8, 9] = [[2, 3, 4], [6], [8, 9]] ∧
    (groupConsecutiveLines [2, 3, 4, 6, 8, 9]).flatten =
      sortInts [2, 3, 4, 6, 8, 9] :=
  ⟨by decide, by decide,
    (groupConsecutiveLines_spec [2, 3, 4, 6, 8, 9] (by decide)).1⟩

/-! ## Treemap lemmas -/

theorem oLtP_trans : Transitive oLtP := by
  intro a b c hab hbc
  cases a <;> cases b <;> cases c <;> simp [oLtP] at *
  omega

theorem jsFindIndex_spec {α : Type} (p : α → Bool) :
    ∀ (l : List α) (i : ℕ) (hi : i < l.length),
      (∀ j (hj : j < l.length), j < i → p (l.get ⟨j, hj⟩) = false) →
      p (l.get ⟨i, hi⟩) = true → jsFindIndex p l = some i := by
  intro l
  induction l with
  | nil => intro i hi; simp at hi
  | cons x t ih =>
    intro i hi hf ht
    cases i with
    | zero =>
      simp only [List.get_eq_getElem, List.getElem_cons_zero] at ht
      simp [jsFindIndex, ht]
    | succ n =>
      have hx : p x = false := by
        have := hf 0 (by simp) (by omega)
        simpa using this
      simp only [jsFindIndex, hx, Bool.false_eq_true, if_false]
      have hn : n < t.length := by
        simp at hi
        omega
      have hrec : jsFindIndex p t = some n := by
        refine ih n hn ?_ ?_
        · intro j hj hjn
          have := hf (j + 1) (by simp; omega) (by omega)
          simpa using this
        · simpa using ht
      rw [hrec]
      rfl

theorem foldl_oMax_somes (lns : List OInt) (h : ∀ x ∈ lns, x ≠ none) :
    ∀ (seed : Int), lns.foldl oMax (some seed) =
      some (lns.foldl (fun m x => max m (x.getD 0)) seed) := by
  induction lns with
  | nil => intro seed; rfl
  | cons x t ih =>
    intro seed
    obtain ⟨v, hv⟩ : ∃ v, x = some v :=
      Option.ne_none_iff_exists'.mp (h x (by simp))
    subst hv
    simp only [List.foldl_cons, oMax, Option.getD_some]
    exact ih (fun y hy => h y (List.mem_cons_of_mem _ hy)) (max seed v)

instance : IsTrans OInt oLtP := ⟨fun _ _ _ hab hbc => oLtP_trans hab hbc⟩

/-- With pairwise strictly increasing declaration lines, the findIndex call
inside `getFunctionLineCount` locates exactly the queried position of the
sorted function list. -/
theorem jsFindIndex_functions (gs : List FunctionCoverage)
    (hpw : List.Pairwise oLtP (gs.map (fun f => f.line)))
    (i : ℕ) (hi : i < gs.length) (a : Int) (ha : (gs.get ⟨i, hi⟩).line = some a) :
    jsFindIndex (fun f => f.name == (gs.get ⟨i, hi⟩).name &&
      oEqB f.line (gs.get ⟨i, hi⟩).line) gs = some i := by
  refine jsFindIndex_spec _ gs i hi ?_ ?_
  · intro j hj hji
    have hlt : oLtP ((gs.map (fun f => f.line)).get ⟨j, by simpa using hj⟩)
        ((gs.map (fun f => f.line)).get ⟨i, by simpa using hi⟩) :=
      List.pairwise_iff_get.mp hpw _ _ (by simpa using hji)
    simp only [List.get_eq_getElem, List.getElem_map] at hlt
    simp only [List.get_eq_getElem] at ha ⊢
    have hje : oEqB gs[j].line gs[i].line = false := by
      rw [ha]
      rcases hc : gs[j].line with _ | c
      · rfl
      · rw [hc, ha] at hlt
        simp only [oLtP] at hlt
        simp only [oEqB, decide_eq_false_iff_not]
        omega
    rw [hje, Bool.and_false]
  · simp only [List.get_eq_getElem] at ha ⊢
    rw [ha]
    simp [oEqB]

/-- The extent computed by `getFunctionLineCount` for the function at sorted
position `i`: up to the next function's declaration line when one exists,
otherwise up to `max (maximum recorded line) (own line + 10)`, with a floor
of one line. -/
theorem getFunctionLineCount_sorted (fc : FileCoverage)
    (hlines : ∀ l ∈ fc.lines, l.line ≠ none)
    (hch : List.Chain' oLtP ((sortFuncs fc.functions).map (fun f => f.line)))
    (i : ℕ) (hi : i < (sortFuncs fc.functions).length) (a : Int)
    (ha : ((sortFuncs fc.functions).get ⟨i, hi⟩).line = some a) :
    (∀ (h2 : i + 1 < (sortFuncs fc.functions).length), ∀ b : Int,
      ((sortFuncs fc.functions).get ⟨i + 1, h2⟩).line = some b →
      getFunctionLineCount ((sortFuncs fc.functions).get ⟨i, hi⟩) fc =
        some (max (b - a) 1)) ∧
    (i + 1 = (sortFuncs fc.functions).length →
      getFunctionLineCount ((sortFuncs fc.functions).get ⟨i, hi⟩) fc =
        some (max ((fc.lines.map (fun l => l.line.getD 0)).foldl max (a + 10) - a)
          1)) := by
  have hpw : List.Pairwise oLtP ((sortFuncs fc.functions).map (fun f => f.line)) :=
    List.chain'_iff_pairwise.mp hch
  have hfind := jsFindIndex_functions (sortFuncs fc.functions) hpw i hi a ha
  constructor
  · intro h2 b hb
    simp only [getFunctionLineCount]
    rw [hfind]
    dsimp only
    rw [List.getElem?_eq_getElem hi, List.getElem?_eq_getElem h2]
    simp only [List.get_eq_getElem] at ha hb
    simp [oSub, oMax, ha, hb]
  · intro hlast
    simp only [getFunctionLineCount]
    rw [hfind]
    dsimp only
    rw [List.getElem?_eq_getElem hi, List.getElem?_eq_none (by omega)]
    simp only [List.get_eq_getElem] at ha
    have hsomes : ∀ x ∈ fc.lines.map (fun l => l.line), x ≠ none := by
      intro x hx
      obtain ⟨l, hl, hlx⟩ := List.mem_map.mp hx
      rw [← hlx]
      exact hlines l hl
    simp only [ha, oAdd]
    rw [foldl_oMax_somes _ hsomes (a + 10)]
    have hmm : (fc.lines.map (fun l => l.line)).foldl
        (fun m x => max m (x.getD 0)) (a + 10) =
        (fc.lines.map (fun l => l.line.getD 0)).foldl max (a + 10) := by
      rw [List.foldl_map, List.foldl_map]
    rw [hmm]
    simp [oSub, oMax]

/-- Claim C6 (amended): with the file's functions in strictly increasing
declaration-line order after sorting, a function's extent runs from its own
declaration line up to (but excluding) the next function's declaration line;
for the last function it runs up to the maximum of the recorded line numbers
*and* the function's own line + 10 — the `+10` term always participates in
the maximum, not only when no line records exist — with a floor of 1 line.
Functions declared at lines 5 and 20 with maximum recorded line 30 yield
extents of 15 and 10 lines. -/
theorem treemap_function_extents :
    (∀ (fc : FileCoverage), (∀ l ∈ fc.lines, l.line ≠ none) →
      List.Chain' oLtP ((sortFuncs fc.functions).map (fun f => f.line)) →
      ∀ (i : ℕ) (hi : i < (sortFuncs fc.functions).length) (a : Int),
        ((sortFuncs fc.functions).get ⟨i, hi⟩).line = some a →
        (∀ (h2 : i + 1 < (sortFuncs fc.functions).length), ∀ b : Int,
          ((sortFuncs fc.functions).get ⟨i + 1, h2⟩).line = some b →
          getFunctionLineCount ((sortFuncs fc.functions).get ⟨i, hi⟩) fc =
            some (max (b - a) 1)) ∧
        (i + 1 = (sortFuncs fc.functions).length →
          getFunctionLineCount ((sortFuncs fc.functions).get ⟨i, hi⟩) fc =
            some (max ((fc.lines.map (fun l => l.line.getD 0)).foldl max (a + 10)
              - a) 1))) ∧
    getFunctionLineCount ⟨"f", some 5, some 1⟩ covExtent = some 15 ∧
    getFunctionLineCount ⟨"g", some 20, some 0⟩ covExtent = some 10 :=
  ⟨getFunctionLineCount_sorted, by decide, by decide⟩

/-- Counterexample for C6: at the claim's own example (functions declared at
lines 5 and 20, maximum recorded line 30) the last function's extent
evaluates to 10, not the claimed 11; and with recorded lines only up to 25
the `line + 10` term still dominates (extent 10, not 5), so `+10` is not
just a fallback for when no line records exist. -/
theorem getFunctionLineCount_counterexample :
    getFunctionLineCount ⟨"g", some 20, some 0⟩ covExtent = some 10 ∧
    ¬ getFunctionLineCount ⟨"g", some 20, some 0⟩ covExtent = some 11 ∧
    getFunctionLineCount ⟨"g", some 20, some 0⟩ covExtent2 = some 10 ∧
    ¬ getFunctionLineCount ⟨"g", some 20, some 0⟩ covExtent2 = some 5 :=
  ⟨by decide, by decide, by decide, by decide⟩

/-- Witness for C6 at the example file: the hypotheses hold and the general
statement applied at the last sorted function gives extent 10. -/
theorem treemap_function_extents_witness :
    (∀ l ∈ covExtent.lines, l.line ≠ none) ∧
    getFunctionLineCount ((sortFuncs covExtent.functions).get ⟨1, by decide⟩)
      covExtent = some 10 := by
  have hmap : (sortFuncs covExtent.functions).map (fun f => f.line) =
      [some 5, some 20] := by decide
  have hch : List.Chain' oLtP
      ((sortFuncs covExtent.functions).map (fun f => f.line)) := by
    rw [hmap]
    exact List.chain'_cons.mpr ⟨by decide, List.chain'_singleton _⟩
  refine ⟨by decide, ?_⟩
  have h := (treemap_function_extents.1 covExtent (by decide) hch 1 (by decide) 20
    (by decide)).2 (by decide)
  exact h.trans (by decide)

/-- Claim C8 (code-bug evaluation): the deriver returns the single root node
"Coverage Analysis" and children in changed-file order, but the per-function
nodes do not follow the report's function-declaration order: the in-place
sort inside `getFunctionLineCount` mutates the array that
`generateTreemapData` is iterating, so a file declaring `g` (line 20) before
`f` (line 5) yields the `g` node twice and never emits `f`. -/
theorem generateTreemapData_mutation_bug :
    (generateTreemapData (analyze csX repX)).name = "Coverage Analysis" ∧
    (generateTreemapData (analyze csX repX)).children.map
      (fun n => n.functionName) = [some "g", some "g"] ∧
    ¬ (generateTreemapData (analyze csX repX)).children.map
      (fun n => n.functionName) = [some "g", some "f"] :=
  ⟨rfl, by decide, by decide⟩

end CoverageMap
